import Mathlib

/-!
Verification of the clip-flow local transcription pipeline and model store.

The definitions below are a shallow embedding of the Rust sources under
`src/src-tauri/src/`:
  * `services/whisper.rs`  — `WhisperService::parse_whisper_output`,
    `WhisperService::parse_timestamp`, `WhisperService::transcribe`;
  * `services/ffmpeg.rs`   — `FFmpegService::get_media_info` (probe report),
    `FFmpegService::extract_audio`;
  * `services/download.rs` — `DownloadService::download_model`,
    `get_installed_models`, `get_model_path`, the model catalog;
  * `commands/transcribe.rs` — the `transcribe_media` orchestrator.

Modelling conventions:
  * Rust `f64` values are modelled as exact rationals (`ℚ`); the source code
    performs only additions, multiplications by constants and divisions by
    powers of ten on values parsed from decimal text, so exact rational
    arithmetic is the intended semantics of these computations.
  * Rust `String`s are Lean `String`s; `str::trim` is modelled over the
    underlying character list using the Unicode `White_Space` predicate that
    Rust's `char::is_whitespace` implements.
  * `f64::from_str` is modelled for finite decimal literals
    (sign, digits, fraction, decimal exponent); the `inf`/`NaN` forms have no
    rational counterpart and are not produced by the external engines whose
    output is parsed here.
  * Effects (subprocess spawns, the filesystem, progress callbacks) are made
    explicit: each operation takes an environment record describing the
    behavior of its external collaborators (probe outcome, stream chunks,
    process exit status) and returns a trace of emitted events, spawned
    subprocesses and final filesystem facts, following the source's control
    flow branch by branch.
-/

namespace ClipFlow

/-- Unicode `White_Space` code points, the predicate implemented by Rust's
`char::is_whitespace`, used by `str::trim`. -/
def wsChar (c : Char) : Bool :=
  let n := c.toNat
  decide ((0x09 ≤ n ∧ n ≤ 0x0D) ∨ n = 0x20 ∨ n = 0x85 ∨ n = 0xA0 ∨
    n = 0x1680 ∨ (0x2000 ≤ n ∧ n ≤ 0x200A) ∨ n = 0x2028 ∨ n = 0x2029 ∨
    n = 0x202F ∨ n = 0x205F ∨ n = 0x3000)

/-- Rust `str::trim` on the character list: drop leading and trailing
`White_Space` characters. -/
def trimChars (l : List Char) : List Char :=
  ((l.dropWhile wsChar).reverse.dropWhile wsChar).reverse

/-- Rust `str::trim`. -/
def rustTrim (s : String) : String := ⟨trimChars s.data⟩

/-- Numeric value of a list of decimal digit characters (most significant
first), accumulated left to right. -/
def digitsVal (l : List Char) : Nat :=
  l.foldl (fun acc c => acc * 10 + (c.toNat - '0'.toNat)) 0

/-- Model of Rust `f64::from_str` restricted to finite decimal literals:
`[+-]? (Digits | Digits '.' Digits? | Digits? '.' Digits) ([eE] [+-]? Digits)?`.
The value is returned as an exact rational.  The `inf`/`infinity`/`NaN`
spellings accepted by Rust denote non-finite values that this development
does not model; the media tools parsed here emit only decimal literals. -/
def parseF64Chars (cs : List Char) : Option ℚ :=
  let (sign, cs) : ℚ × List Char :=
    match cs with
    | '+' :: r => (1, r)
    | '-' :: r => (-1, r)
    | r => (1, r)
  let intPart := cs.takeWhile Char.isDigit
  let rest := cs.dropWhile Char.isDigit
  let (fracPart, rest) : List Char × List Char :=
    match rest with
    | '.' :: r => (r.takeWhile Char.isDigit, r.dropWhile Char.isDigit)
    | r => ([], r)
  if intPart.isEmpty ∧ fracPart.isEmpty then none
  else
    let mantissa : ℚ :=
      sign * ((digitsVal intPart : ℚ) + (digitsVal fracPart : ℚ) / (10 : ℚ) ^ fracPart.length)
    match rest with
    | [] => some mantissa
    | e :: r =>
      if e = 'e' ∨ e = 'E' then
        let (expSign, r) : Bool × List Char :=
          match r with
          | '+' :: r2 => (true, r2)
          | '-' :: r2 => (false, r2)
          | r2 => (true, r2)
        let expDigits := r.takeWhile Char.isDigit
        let rest2 := r.dropWhile Char.isDigit
        if expDigits.isEmpty ∨ ¬ rest2.isEmpty then none
        else if expSign then some (mantissa * (10 : ℚ) ^ digitsVal expDigits)
        else some (mantissa / (10 : ℚ) ^ digitsVal expDigits)
      else none

/-- Rust `f64::from_str` on a `String` (see `parseF64Chars`). -/
def parseRustF64 (s : String) : Option ℚ := parseF64Chars s.data

/-- Rust `str::split(':')`: the (possibly empty) runs of characters between
the occurrences of `:`, in order. -/
def splitColon : List Char → List (List Char)
  | [] => [[]]
  | c :: rest =>
    match splitColon rest with
    | [] => [[]]
    | h :: t => if c = ':' then [] :: h :: t else (c :: h) :: t

/-- `WhisperService::parse_timestamp` (whisper.rs): split on `:` into exactly
three parts, parse hours, minutes and seconds (the seconds part first has
every `,` replaced by `.` — a single-character pattern, so the replacement is
a character map), and combine. -/
def parse_timestamp (s : String) : Option ℚ :=
  match splitColon s.data with
  | [p0, p1, p2] => do
    let hours ← parseF64Chars p0
    let minutes ← parseF64Chars p1
    let seconds ← parseF64Chars (p2.map (fun c => if c = ',' then '.' else c))
    some (hours * 3600 + minutes * 60 + seconds)
  | _ => none

/-- The fields `parse_whisper_output` reads from one entry of the JSON
`transcription` array: `timestamps.from` / `timestamps.to` when present as
strings, `offsets.from` / `offsets.to` when present as integers, and `text`
when present as a string (each projection is `None` when the field is missing
or has the wrong JSON type, matching the `get`/`and_then`/`as_*` chains). -/
structure RawSegment where
  timestamps_from : Option String
  timestamps_to : Option String
  offsets_from : Option Int
  offsets_to : Option Int
  text : Option String
deriving Repr, DecidableEq

/-- A parsed transcription segment (whisper.rs `TranscriptionSegment`). -/
structure TranscriptionSegment where
  start : ℚ
  «end» : ℚ
  text : String
deriving Repr, DecidableEq

/-- A parsed transcription result (whisper.rs `TranscriptionResult`). -/
structure TranscriptionResult where
  segments : List TranscriptionSegment
  full_text : String
  language : Option String
  duration : ℚ
deriving Repr, DecidableEq

/-- Start time of a raw segment: the `timestamps.from` string parsed by
`parse_timestamp`, else the `offsets.from` milliseconds divided by 1000,
else `0.0` (the `and_then … .or_else … .unwrap_or(0.0)` chain). -/
def segStart (s : RawSegment) : ℚ :=
  match s.timestamps_from.bind parse_timestamp with
  | some v => v
  | none =>
    match s.offsets_from with
    | some ms => (ms : ℚ) / 1000
    | none => 0

/-- End time of a raw segment, symmetric to `segStart`. -/
def segEnd (s : RawSegment) : ℚ :=
  match s.timestamps_to.bind parse_timestamp with
  | some v => v
  | none =>
    match s.offsets_to with
    | some ms => (ms : ℚ) / 1000
    | none => 0

/-- One iteration of the segment loop in `parse_whisper_output`: trim the
text; when it is non-empty, append the text plus a single space to the
accumulated full text and push the segment. -/
def parseStep (acc : List TranscriptionSegment × String) (seg : RawSegment) :
    List TranscriptionSegment × String :=
  let text := rustTrim (seg.text.getD "")
  if text = "" then acc
  else (acc.1 ++ [⟨segStart seg, segEnd seg, text⟩], acc.2 ++ text ++ " ")

/-- `WhisperService::parse_whisper_output`, applied to the decoded JSON:
`transcription` is the `transcription` array when present (`none` models a
missing or non-array field, which the source treats as an empty list after
logging a warning), `language` is the optional `result.language` string.
File reading and JSON decoding failures occur before this point and are not
part of the parse itself. -/
def parse_whisper_output (transcription : Option (List RawSegment))
    (language : Option String) : TranscriptionResult :=
  let p := (transcription.getD []).foldl parseStep ([], "")
  { segments := p.1
    full_text := rustTrim p.2
    language := language
    duration :=
      match p.1.getLast? with
      | some s => s.«end»
      | none => 0 }

/-- The segment the loop retains from one raw segment, if any: `none` exactly
when the trimmed text is empty. -/
def retainedSeg (seg : RawSegment) : Option TranscriptionSegment :=
  let text := rustTrim (seg.text.getD "")
  if text = "" then none else some ⟨segStart seg, segEnd seg, text⟩

/-- Concatenation of texts, each followed by one space — the shape of the
`full_text` accumulator before the final trim. -/
def joinT : List String → String
  | [] => ""
  | t :: ts => t ++ " " ++ joinT ts

/-- Modelled from the spec's words: the "single-space-joined concatenation"
of a list of texts, used to compare the source's `full_text` against the
specified shape. -/
def joinWithSpaces (ts : List String) : String :=
  ⟨List.intercalate [' '] (ts.map String.data)⟩

/-- The error enumeration of `error.rs` (`AppError`).  The `Io`, `Network`
and `Json` variants wrap foreign error values; only their presence matters
here, so they carry their rendered message. -/
inductive AppError where
  | FFmpeg (msg : String)
  | Whisper (msg : String)
  | Download (msg : String)
  | Io (msg : String)
  | Network (msg : String)
  | Json (msg : String)
  | ModelNotFound (msg : String)
  | InvalidPath (msg : String)
  | ProcessFailed (msg : String)
  | Keychain (msg : String)
deriving Repr, DecidableEq

/-- The probe report of `FFmpegService::get_media_info` (ffmpeg.rs
`MediaInfo`). -/
structure MediaInfo where
  format : String
  duration : ℚ
  has_video : Bool
  has_audio : Bool
deriving Repr, DecidableEq

/-- The kinds of external subprocess the pipeline spawns. -/
inductive Proc where
  | ffprobe
  | ffmpeg
  | whisper
deriving Repr, DecidableEq

/-- One `transcription:progress` event payload (transcribe.rs
`TranscriptionProgress`). -/
structure Event where
  stage : String
  progress : ℚ
  message : String
deriving Repr, DecidableEq

/-- Abstracted behavior of the external world during one `transcribe_media`
run.  Each field is the outcome of one collaborator exactly as the source
consumes it:
  * `media_info` — what `FFmpegService::get_media_info` returns (the probe
    always spawns one `ffprobe` subprocess before returning);
  * `temp_dir_ok` — whether `create_dir_all` on the temp directory succeeds;
  * `extract_duration` — what `FFmpegService::get_duration` returns inside
    `extract_audio` (a second `ffprobe` subprocess);
  * `extract_progress` — the values `extract_audio` passes to its progress
    callback from `out_time_ms=` lines (each already scaled and clamped by
    the extractor; the extractor contract keeps them in `[0, 100]`);
  * `extract_exit_ok` — the `ffmpeg` transcode exit status (`false` also
    covers a failed spawn; the message is abstracted to the exit-failure
    text);
  * `extract_creates_file` — whether the failed transcode had already
    created the output `.wav` file (a successful transcode always has);
  * `whisper_new_ok` — whether `WhisperService::new` succeeds (it fails only
    when the local data directory cannot be resolved);
  * `transcribe_spawn` — whether `WhisperService::transcribe` reached the
    point of spawning the engine process (its preconditions held and the
    spawn succeeded);
  * `transcribe_progress` — the values `transcribe` passes to the progress
    callback (the `progress = N%` lines, plus its own final `100.0` on
    success);
  * `transcribe_result` — what `WhisperService::transcribe` returns. -/
structure PipelineEnv where
  media_info : Except AppError MediaInfo
  temp_dir_ok : Bool
  extract_duration : Except AppError ℚ
  extract_progress : List ℚ
  extract_exit_ok : Bool
  extract_creates_file : Bool
  whisper_new_ok : Bool
  transcribe_spawn : Bool
  transcribe_progress : List ℚ
  transcribe_result : Except AppError TranscriptionResult

/-- What one `transcribe_media` run did: the emitted progress events in
order, the subprocesses spawned in order, whether the temporary `.wav` file
exists when the function returns, and the returned value. -/
structure RunTrace where
  events : List Event
  spawned : List Proc
  temp_file_exists : Bool
  outcome : Except AppError TranscriptionResult

/-- `transcribe_media` (commands/transcribe.rs), branch by branch:
probe; reject a missing audio stream; emit `("extracting", 0)`; create the
temp dir; run `extract_audio` (whose callback emits `progress * 0.3`, and
which itself first probes the duration, then transcodes); emit the
`("extracting", 30)` / `("transcribing", 30)` pair; build `WhisperService`;
run `transcribe` (whose callback emits `30 + progress * 0.7`); delete the
temporary waveform — only on this success path — and emit
`("complete", 100)`.  Every early `?`-return is reproduced, and none of them
deletes the temporary file. -/
def transcribe_media (env : PipelineEnv) (model_id : String) : RunTrace :=
  match env.media_info with
  | .error e => ⟨[], [.ffprobe], false, .error e⟩
  | .ok info =>
    if info.has_audio = false then
      ⟨[], [.ffprobe], false,
        .error (.FFmpeg "This video does not contain an audio stream")⟩
    else
      let ev0 : List Event := [⟨"extracting", 0, "Extracting audio..."⟩]
      if env.temp_dir_ok = false then
        ⟨ev0, [.ffprobe], false, .error (.Io "create temp dir failed")⟩
      else
        match env.extract_duration with
        | .error e => ⟨ev0, [.ffprobe, .ffprobe], false, .error e⟩
        | .ok _ =>
          let exEv := env.extract_progress.map
            (fun p => (⟨"extracting", p * (3 / 10), "Extracting audio..."⟩ : Event))
          if env.extract_exit_ok = false then
            ⟨ev0 ++ exEv, [.ffprobe, .ffprobe, .ffmpeg],
              env.extract_creates_file,
              .error (.FFmpeg "Audio extraction failed")⟩
          else
            let exDone := ev0 ++ exEv ++
              [⟨"extracting", 100 * (3 / 10), "Extracting audio..."⟩,
               ⟨"extracting", 30, "Audio extraction complete"⟩,
               ⟨"transcribing", 30, "Starting transcription..."⟩]
            if env.whisper_new_ok = false then
              ⟨exDone, [.ffprobe, .ffprobe, .ffmpeg], true,
                .error (.InvalidPath "Cannot find data directory")⟩
            else
              let spawned := [.ffprobe, .ffprobe, .ffmpeg] ++
                (if env.transcribe_spawn then [Proc.whisper] else [])
              let trEv := env.transcribe_progress.map
                (fun p => (⟨"transcribing", 30 + p * (7 / 10),
                  "Transcribing with " ++ model_id ++ "..."⟩ : Event))
              match env.transcribe_result with
              | .error e => ⟨exDone ++ trEv, spawned, true, .error e⟩
              | .ok r =>
                ⟨exDone ++ trEv ++ [⟨"complete", 100, "Transcription complete"⟩],
                  spawned, false, .ok r⟩

/-- One catalog entry (download.rs `WhisperModel`). -/
structure WhisperModel where
  id : String
  name : String
  description : String
  size_bytes : Nat
  size_display : String
  url : String
  sha256 : Option String
deriving Repr, DecidableEq

/-- `WhisperModel::available_models` (download.rs): the fixed catalog. -/
def available_models : List WhisperModel :=
  [⟨"tiny", "Tiny", "tiny", 77700000, "78 MB",
      "https://huggingface.co/ggerganov/whisper.cpp/resolve/main/ggml-tiny.bin", none⟩,
   ⟨"base", "Base", "base", 148000000, "148 MB",
      "https://huggingface.co/ggerganov/whisper.cpp/resolve/main/ggml-base.bin", none⟩,
   ⟨"small", "Small", "small", 488000000, "488 MB",
      "https://huggingface.co/ggerganov/whisper.cpp/resolve/main/ggml-small.bin", none⟩,
   ⟨"medium", "Medium", "medium", 1530000000, "1.5 GB",
      "https://huggingface.co/ggerganov/whisper.cpp/resolve/main/ggml-medium.bin", none⟩,
   ⟨"large-v1", "Large v1", "largeV1", 3090000000, "3.1 GB",
      "https://huggingface.co/ggerganov/whisper.cpp/resolve/main/ggml-large-v1.bin", none⟩,
   ⟨"large-v2", "Large v2", "largeV2", 3090000000, "3.1 GB",
      "https://huggingface.co/ggerganov/whisper.cpp/resolve/main/ggml-large-v2.bin", none⟩,
   ⟨"large-v3", "Large v3", "largeV3", 3100000000, "3.1 GB",
      "https://huggingface.co/ggerganov/whisper.cpp/resolve/main/ggml-large-v3.bin", none⟩,
   ⟨"large-v3-turbo", "Large v3 Turbo", "largeV3Turbo", 1620000000, "1.6 GB",
      "https://huggingface.co/ggerganov/whisper.cpp/resolve/main/ggml-large-v3-turbo.bin", none⟩]

/-- Rust `Path::extension` on a bare file name (no directory separators):
the portion after the final `.`, or `none` when there is no `.`, or when the
only `.` is the leading character (a hidden file with no further dot). -/
def extensionChars (cs : List Char) : Option (List Char) :=
  match cs.reverse.dropWhile (· ≠ '.') with
  | [] => none
  | _ :: stemRev =>
    if stemRev = [] then none
    else some (cs.reverse.takeWhile (· ≠ '.')).reverse

/-- Rust `Path::file_stem` on a bare file name: the portion before the final
`.`, or the whole name when `extension` is `none`. -/
def fileStemChars (cs : List Char) : List Char :=
  match cs.reverse.dropWhile (· ≠ '.') with
  | [] => cs
  | _ :: stemRev => if stemRev = [] then cs else stemRev.reverse

/-- Rust `Path::extension` on a file name given as a `String`. -/
def rustExtensionName (name : String) : Option String :=
  (extensionChars name.data).map (fun l => (⟨l⟩ : String))

/-- Rust `Path::with_extension` on a bare file name: the file stem, followed
by `.` and the new extension (or the bare stem when the new extension is
empty). -/
def withExtensionName (name ext : String) : String :=
  ⟨fileStemChars name.data ++ (if ext = "" then [] else '.' :: ext.data)⟩

/-- `DownloadService::get_model_path` (download.rs), reduced to the file
name inside the models directory: `ggml-{model_id}.bin`. -/
def get_model_path (model_id : String) : String :=
  "ggml-" ++ model_id ++ ".bin"

/-- The temporary download path of `download_model`:
`get_model_path(id).with_extension("bin.tmp")`. -/
def temp_model_path (model_id : String) : String :=
  withExtensionName (get_model_path model_id) "bin.tmp"

/-- Rust `str::trim_start_matches("ggml-")`: repeatedly remove a leading
`ggml-`. -/
def trimStartMatchesGgml : List Char → List Char
  | 'g' :: 'g' :: 'm' :: 'l' :: '-' :: rest => trimStartMatchesGgml rest
  | l => l

/-- `DownloadService::get_installed_models` (download.rs), applied to the
file names the directory scan yields: keep entries whose extension is `bin`,
and report the file stem with every leading `ggml-` stripped. -/
def get_installed_models (entries : List String) : List String :=
  entries.filterMap (fun name =>
    if rustExtensionName name = some "bin" then
      some (⟨trimStartMatchesGgml (fileStemChars name.data)⟩ : String)
    else none)

/-- The filesystem facts `download_model` can change: whether the canonical
model file and the temporary `.tmp` file exist. -/
structure FsState where
  canonical : Bool
  temp : Bool
deriving Repr, DecidableEq

/-- One progress payload (download.rs `DownloadProgress`). -/
structure DownloadProgress where
  downloaded : Nat
  total : Nat
  percent : ℚ
  model_id : String
deriving Repr, DecidableEq

/-- Abstracted collaborator behavior for one `download_model` call:
whether the HTTP `send` succeeds, the reported `Content-Length`, and the
streamed chunks — each chunk either delivers a byte count or fails the
stream with an error message.  Creating the temporary file is modelled as
succeeding (its failure would be an `Io` error taken before any chunk). -/
structure DownloadEnv where
  send_ok : Bool
  content_length : Option Nat
  chunks : List (Except String Nat)

/-- The chunk loop of `download_model`: on each good chunk, extend the byte
count and emit one progress payload; a failed chunk aborts with the stream's
error message, leaving the progress emitted so far. -/
def downloadLoop (model_id : String) (total : Nat) :
    List (Except String Nat) → Nat → List DownloadProgress →
    Except String Unit × Nat × List DownloadProgress
  | [], downloaded, acc => (.ok (), downloaded, acc)
  | .error e :: _, downloaded, acc => (.error e, downloaded, acc)
  | .ok n :: rest, downloaded, acc =>
    let d := downloaded + n
    downloadLoop model_id total rest d
      (acc ++ [⟨d, total, (d : ℚ) / (total : ℚ) * 100, model_id⟩])

/-- `DownloadService::download_model` (download.rs): look the id up in the
catalog (`ModelNotFound` when absent); send the request (`Network` error on
failure); create the temporary file; stream chunks to it, emitting progress
(`Download` error when the stream fails); flush; rename the temporary file
onto the canonical path.  Returns the result, the final filesystem facts and
the emitted progress list.  No branch removes the temporary file except the
final rename. -/
def download_model (model_id : String) (env : DownloadEnv) (fs : FsState) :
    Except AppError String × FsState × List DownloadProgress :=
  match available_models.find? (fun m => m.id = model_id) with
  | none => (.error (.ModelNotFound model_id), fs, [])
  | some model =>
    if env.send_ok = false then (.error (.Network "request failed"), fs, [])
    else
      let total := env.content_length.getD model.size_bytes
      let fs1 : FsState := { fs with temp := true }
      match downloadLoop model_id total env.chunks 0 [] with
      | (.error e, _, acc) => (.error (.Download e), fs1, acc)
      | (.ok _, _, acc) =>
        (.ok (get_model_path model_id), { canonical := true, temp := false }, acc)

/-- A concrete environment for a fully successful pipeline run. -/
def happyEnv : PipelineEnv :=
  ⟨.ok ⟨"mp4", 120, true, true⟩, true, .ok 120, [50], true, true, true, true, [50],
    .ok ⟨[], "", none, 0⟩⟩


lemma head_false_of_dropWhile {p : Char → Bool} {l : List Char} {c : Char}
    {rest : List Char} (h : l.dropWhile p = c :: rest) : p c = false := by
  induction l with
  | nil => simp at h
  | cons a l ih =>
    by_cases ha : p a
    · rw [List.dropWhile_cons_of_pos ha] at h
      exact ih h
    · rw [List.dropWhile_cons_of_neg ha] at h
      cases h
      simpa using ha

lemma head?_false_of_dropWhile {p : Char → Bool} {l : List Char} {c : Char}
    (h : (l.dropWhile p).head? = some c) : p c = false := by
  cases hd : l.dropWhile p with
  | nil => simp [hd] at h
  | cons a rest =>
    rw [hd] at h
    simp at h
    subst h
    exact head_false_of_dropWhile hd

lemma dropWhile_eq_self_of_head? {p : Char → Bool} {l : List Char}
    (h : ∀ c, l.head? = some c → p c = false) : l.dropWhile p = l := by
  cases l with
  | nil => rfl
  | cons a rest => exact List.dropWhile_cons_of_neg (by simp [h a rfl])

lemma getLast?_dropWhile {p : Char → Bool} (l : List Char)
    (h : l.dropWhile p ≠ []) : (l.dropWhile p).getLast? = l.getLast? := by
  obtain ⟨pre, hpre⟩ : l.dropWhile p <:+ l := List.dropWhile_suffix p
  conv_rhs => rw [← hpre]
  exact (List.getLast?_append_of_ne_nil pre h).symm

lemma trimChars_head?_not_ws {l : List Char} {c : Char}
    (h : (trimChars l).head? = some c) : wsChar c = false := by
  unfold trimChars at h
  rw [List.head?_reverse] at h
  have hne : (l.dropWhile wsChar).reverse.dropWhile wsChar ≠ [] := by
    intro he
    rw [he] at h
    simp at h
  rw [getLast?_dropWhile _ hne, List.getLast?_reverse] at h
  exact head?_false_of_dropWhile h

lemma trimChars_getLast?_not_ws {l : List Char} {c : Char}
    (h : (trimChars l).getLast? = some c) : wsChar c = false := by
  unfold trimChars at h
  rw [List.getLast?_reverse] at h
  exact head?_false_of_dropWhile h

lemma trimChars_eq_self {l : List Char}
    (hh : ∀ c, l.head? = some c → wsChar c = false)
    (hl : ∀ c, l.getLast? = some c → wsChar c = false) : trimChars l = l := by
  unfold trimChars
  rw [dropWhile_eq_self_of_head? hh]
  rw [dropWhile_eq_self_of_head? (fun c hc => hl c (by rwa [List.head?_reverse] at hc))]
  exact List.reverse_reverse l

lemma trimChars_idem (l : List Char) : trimChars (trimChars l) = trimChars l :=
  trimChars_eq_self (fun _ hc => trimChars_head?_not_ws hc)
    (fun _ hc => trimChars_getLast?_not_ws hc)

/-- The character list of `joinT` over a non-empty list of texts is the
single-space intercalation followed by one trailing space. -/
lemma joinT_data (t : String) (ts : List String) :
    (joinT (t :: ts)).data =
      List.intercalate [' '] ((t :: ts).map String.data) ++ [' '] := by
  induction ts generalizing t with
  | nil => simp [joinT, List.intercalate]
  | cons u ts ih =>
    show (t ++ " " ++ joinT (u :: ts)).data = _
    rw [String.data_append, String.data_append, ih u]
    simp [List.intercalate, List.intersperse]

lemma intercalate_head? (d : List Char) (ds : List (List Char)) (hd : d ≠ []) :
    (List.intercalate [' '] (d :: ds)).head? = d.head? := by
  cases ds with
  | nil => simp [List.intercalate]
  | cons e ds =>
    rw [show List.intercalate [' '] (d :: e :: ds) = d ++ [' '] ++ List.intercalate [' '] (e :: ds) by
      simp [List.intercalate, List.intersperse]]
    rw [List.append_assoc, List.head?_append]
    cases hdc : d.head? with
    | none => exact absurd (List.head?_eq_none_iff.mp hdc) hd
    | some c => rfl

lemma intercalate_ne_nil (d : List Char) (ds : List (List Char)) (hd : d ≠ []) :
    List.intercalate [' '] (d :: ds) ≠ [] := by
  intro h
  have := intercalate_head? d ds hd
  rw [h] at this
  cases d with
  | nil => exact hd rfl
  | cons c cs => simp at this

lemma intercalate_getLast? (ds : List (List Char)) (hne : ds ≠ [])
    (h : ∀ d ∈ ds, d ≠ []) :
    ∃ dl ∈ ds, (List.intercalate [' '] ds).getLast? = dl.getLast? := by
  induction ds with
  | nil => exact absurd rfl hne
  | cons d ds ih =>
    cases ds with
    | nil => exact ⟨d, by simp, by simp [List.intercalate]⟩
    | cons e ds' =>
      obtain ⟨dl, hmem, hlast⟩ := ih (by simp) (fun x hx => h x (List.mem_cons_of_mem d hx))
      refine ⟨dl, List.mem_cons_of_mem d hmem, ?_⟩
      rw [show List.intercalate [' '] (d :: e :: ds') = d ++ ([' '] ++ List.intercalate [' '] (e :: ds')) by
        simp [List.intercalate, List.intersperse]]
      rw [List.getLast?_append_of_ne_nil]
      · rw [List.getLast?_append_of_ne_nil]
        · exact hlast
        · exact intercalate_ne_nil e ds' (h e (by simp))
      · simp

/-- Trimming the space-terminated concatenation of non-empty, already-trimmed
texts yields the single-space intercalation of those texts. -/
lemma rustTrim_joinT (ts : List String)
    (h : ∀ t ∈ ts, t ≠ "" ∧ rustTrim t = t) :
    rustTrim (joinT ts) = joinWithSpaces ts := by
  cases ts with
  | nil => rfl
  | cons t ts =>
    have hgood : ∀ u ∈ (t :: ts), u.data ≠ [] ∧
        (∀ c, u.data.head? = some c → wsChar c = false) ∧
        (∀ c, u.data.getLast? = some c → wsChar c = false) := by
      intro u hu
      obtain ⟨hne, htrim⟩ := h u hu
      have hdata : trimChars u.data = u.data := congrArg String.data htrim
      refine ⟨?_, ?_, ?_⟩
      · intro hd
        apply hne
        cases u
        cases hd
        rfl
      · intro c hc
        exact trimChars_head?_not_ws (l := u.data) (by rwa [hdata])
      · intro c hc
        exact trimChars_getLast?_not_ws (l := u.data) (by rwa [hdata])
    set I := List.intercalate [' '] ((t :: ts).map String.data) with hI
    have hIhead : ∀ c, I.head? = some c → wsChar c = false := by
      intro c hc
      rw [hI, List.map_cons, intercalate_head? _ _ ((hgood t (by simp)).1)] at hc
      exact (hgood t (by simp)).2.1 c hc
    have hIlast : ∀ c, I.getLast? = some c → wsChar c = false := by
      intro c hc
      obtain ⟨dl, hmem, hlast⟩ := intercalate_getLast? ((t :: ts).map String.data)
        (by simp) (by
          intro d hd
          obtain ⟨u, hu, rfl⟩ := List.mem_map.mp hd
          exact (hgood u hu).1)
      rw [hI, hlast] at hc
      obtain ⟨u, hu, rfl⟩ := List.mem_map.mp hmem
      exact (hgood u hu).2.2 c hc
    have hIne : I ≠ [] := by
      rw [hI, List.map_cons]
      exact intercalate_ne_nil _ _ ((hgood t (by simp)).1)
    show (⟨trimChars (joinT (t :: ts)).data⟩ : String) = _
    rw [joinT_data, ← hI]
    have step1 : (I ++ [' ']).dropWhile wsChar = I ++ [' '] := by
      apply dropWhile_eq_self_of_head?
      intro c hc
      rw [List.head?_append] at hc
      cases hIh : I.head? with
      | none => exact absurd (List.head?_eq_none_iff.mp hIh) hIne
      | some c0 =>
        rw [hIh] at hc
        simp at hc
        subst hc
        exact hIhead c0 hIh
    have step2 : (I ++ [' ']).reverse.dropWhile wsChar = I.reverse := by
      rw [List.reverse_append]
      show ([' '].reverse ++ I.reverse).dropWhile wsChar = I.reverse
      rw [show ([' '] : List Char).reverse = [' '] from rfl]
      rw [show ([' '] ++ I.reverse : List Char) = ' ' :: I.reverse from rfl]
      rw [List.dropWhile_cons_of_pos (by decide)]
      apply dropWhile_eq_self_of_head?
      intro c hc
      rw [List.head?_reverse] at hc
      exact hIlast c hc
    unfold trimChars
    rw [step1, step2, List.reverse_reverse]
    rfl

lemma foldl_parseStep_spec (raws : List RawSegment) :
    ∀ segs full, raws.foldl parseStep (segs, full) =
      (segs ++ raws.filterMap retainedSeg,
       full ++ joinT ((raws.filterMap retainedSeg).map (fun s => s.text))) := by
  induction raws with
  | nil => intro segs full; simp [joinT]
  | cons r rest ih =>
    intro segs full
    rw [List.foldl_cons]
    by_cases hr : rustTrim (r.text.getD "") = ""
    · rw [show parseStep (segs, full) r = (segs, full) by simp [parseStep, hr]]
      rw [ih segs full]
      rw [show (r :: rest).filterMap retainedSeg = rest.filterMap retainedSeg by
        simp [List.filterMap_cons, retainedSeg, hr]]
    · rw [show parseStep (segs, full) r =
        (segs ++ [⟨segStart r, segEnd r, rustTrim (r.text.getD "")⟩],
         full ++ rustTrim (r.text.getD "") ++ " ") by simp [parseStep, hr]]
      rw [ih]
      rw [show (r :: rest).filterMap retainedSeg =
        (⟨segStart r, segEnd r, rustTrim (r.text.getD "")⟩ : TranscriptionSegment) ::
          rest.filterMap retainedSeg by
        simp [List.filterMap_cons, retainedSeg, hr]]
      rw [List.map_cons]
      rw [show joinT (rustTrim (r.text.getD "") ::
          (rest.filterMap retainedSeg).map (fun s => s.text)) =
        rustTrim (r.text.getD "") ++ " " ++
          joinT ((rest.filterMap retainedSeg).map (fun s => s.text)) from rfl]
      simp [List.append_assoc, String.append_assoc]

/-- Closed form of `parse_whisper_output`: the retained segments, the trimmed
space-joined full text, the language and the last segment's end time. -/
lemma parse_whisper_output_spec (transcription : Option (List RawSegment))
    (lang : Option String) :
    parse_whisper_output transcription lang =
      { segments := (transcription.getD []).filterMap retainedSeg
        full_text := rustTrim (joinT (((transcription.getD []).filterMap retainedSeg).map (fun s => s.text)))
        language := lang
        duration :=
          match ((transcription.getD []).filterMap retainedSeg).getLast? with
          | some s => s.«end»
          | none => 0 } := by
  unfold parse_whisper_output
  rw [foldl_parseStep_spec]
  simp

/-- Every retained segment's text is non-empty and already trimmed. -/
lemma retained_text_good {raws : List RawSegment} {s : TranscriptionSegment}
    (h : s ∈ raws.filterMap retainedSeg) : s.text ≠ "" ∧ rustTrim s.text = s.text := by
  obtain ⟨r, _, hr⟩ := List.mem_filterMap.mp h
  unfold retainedSeg at hr
  by_cases he : rustTrim (r.text.getD "") = ""
  · simp [he] at hr
  · simp [he] at hr
    subst hr
    refine ⟨he, ?_⟩
    show (⟨trimChars (rustTrim (r.text.getD "")).data⟩ : String) = _
    rw [show (rustTrim (r.text.getD "")).data = trimChars (r.text.getD "").data from rfl]
    rw [trimChars_idem]
    rfl

/-- C5: for every parsed engine output, `full_text` equals the single-space
join of the retained segments' texts (which is already trimmed, since each
retained text is non-empty and trimmed); in particular the engine output with
segment texts "Hello", "", "world" yields exactly the two segments "Hello"
and "world" and `full_text = "Hello world"`. -/
theorem c5_full_text :
    (∀ (transcription : Option (List RawSegment)) (lang : Option String),
      (parse_whisper_output transcription lang).full_text =
        joinWithSpaces ((parse_whisper_output transcription lang).segments.map (fun s => s.text))) ∧
    (parse_whisper_output (some [⟨none, none, none, none, some "Hello"⟩,
        ⟨none, none, none, none, some ""⟩,
        ⟨none, none, none, none, some "world"⟩]) none).segments.map (fun s => s.text) =
      ["Hello", "world"] ∧
    (parse_whisper_output (some [⟨none, none, none, none, some "Hello"⟩,
        ⟨none, none, none, none, some ""⟩,
        ⟨none, none, none, none, some "world"⟩]) none).full_text = "Hello world" := by
  refine ⟨?_, by decide, by decide⟩
  intro transcription lang
  rw [parse_whisper_output_spec]
  exact rustTrim_joinT _ (by
    intro t ht
    obtain ⟨s, hs, rfl⟩ := List.mem_map.mp ht
    exact retained_text_good hs)

/-- C6: for every parsed result, `duration` is `0` when the segment list is
empty and the last segment's end time otherwise; and when every raw segment's
trimmed text is empty the parse returns the valid empty result
(no segments, empty `full_text`, duration `0`) rather than an error. -/
theorem c6_duration :
    (∀ (transcription : Option (List RawSegment)) (lang : Option String),
      ((parse_whisper_output transcription lang).segments = [] →
        (parse_whisper_output transcription lang).duration = 0) ∧
      (∀ h : (parse_whisper_output transcription lang).segments ≠ [],
        (parse_whisper_output transcription lang).duration =
          ((parse_whisper_output transcription lang).segments.getLast h).«end»)) ∧
    (∀ (raws : List RawSegment) (lang : Option String),
      (∀ r ∈ raws, rustTrim (r.text.getD "") = "") →
      parse_whisper_output (some raws) lang = ⟨[], "", lang, 0⟩) := by
  constructor
  · intro transcription lang
    rw [parse_whisper_output_spec]
    dsimp only
    constructor
    · intro h
      rw [h]
      rfl
    · intro h
      rw [List.getLast?_eq_getLast _ h]
  · intro raws lang h
    rw [parse_whisper_output_spec]
    have hfm : raws.filterMap retainedSeg = [] := by
      rw [List.filterMap_eq_nil_iff]
      intro r hr
      simp [retainedSeg, h r hr]
    simp only [Option.getD_some]
    rw [hfm]
    rfl

/-- C6 (witness): the theorem applied to concrete engine outputs — one whose
only segment has text "a" (so the duration is the last segment's end time)
and one whose only segment trims to empty text (so the result is the valid
empty result). -/
theorem c6_duration_witness :
    (parse_whisper_output (some [⟨none, none, none, none, some "a"⟩]) none).duration = 0 ∧
    parse_whisper_output (some [⟨none, none, none, none, some " "⟩]) none =
      ⟨[], "", none, 0⟩ := by
  constructor
  · have h : (parse_whisper_output
        (some [⟨none, none, none, none, some "a"⟩]) none).segments ≠ [] := by decide
    rw [(c6_duration.1 _ _).2 h]
    have h2 : (parse_whisper_output
        (some [⟨none, none, none, none, some "a"⟩]) none).segments.getLast? =
          some ⟨0, 0, "a"⟩ := by decide
    rw [List.getLast?_eq_getLast _ h] at h2
    rw [Option.some.inj h2]
  · exact c6_duration.2 _ _ (by decide)

/-- C3 (counterexample): the parser performs no ordering validation — an
engine output whose single segment has `offsets.from = 2000` and
`offsets.to = 1000` is retained as a segment with `start = 2` and `end = 1`,
violating the claimed `endSeconds >= startSeconds`. -/
theorem c3_counterexample :
    ∃ s ∈ (parse_whisper_output
        (some [⟨none, none, some 2000, some 1000, some "hi"⟩]) none).segments,
      ¬ (s.start ≤ s.«end») := by
  refine ⟨⟨2, 1, "hi"⟩, ?_, by norm_num⟩
  rw [parse_whisper_output_spec]
  have : retainedSeg ⟨none, none, some 2000, some 1000, some "hi"⟩ =
      some ⟨2, 1, "hi"⟩ := by
    unfold retainedSeg segStart segEnd
    norm_num
    exact ⟨by decide, by decide⟩
  simp [this]

/-- C3 (amended): every segment of a parsed result has non-empty,
already-trimmed text (segments with empty trimmed text are dropped), and the
bounds `0 <= start <= end` hold for every output segment whenever the raw
segments' extracted times already satisfy them — the parser itself does not
validate them. -/
theorem c3_amended (transcription : Option (List RawSegment)) (lang : Option String)
    (s : TranscriptionSegment)
    (hs : s ∈ (parse_whisper_output transcription lang).segments) :
    (rustTrim s.text = s.text ∧ s.text ≠ "") ∧
    ((∀ r ∈ transcription.getD [], 0 ≤ segStart r ∧ segStart r ≤ segEnd r) →
      0 ≤ s.start ∧ s.start ≤ s.«end») := by
  rw [parse_whisper_output_spec] at hs
  dsimp only at hs
  have hgood := retained_text_good hs
  refine ⟨⟨hgood.2, hgood.1⟩, ?_⟩
  intro h
  obtain ⟨r, hr, hret⟩ := List.mem_filterMap.mp hs
  unfold retainedSeg at hret
  by_cases he : rustTrim (r.text.getD "") = ""
  · simp [he] at hret
  · simp [he] at hret
    obtain ⟨h1, h2⟩ := h r hr
    rw [← hret]
    exact ⟨h1, h2⟩

/-- C3 (witness): the amended theorem applied to a concrete raw segment with
`offsets.from = 0`, `offsets.to = 500` and text " hi ". -/
theorem c3_amended_witness :
    ∃ s ∈ (parse_whisper_output
        (some [⟨none, none, some 0, some 500, some " hi "⟩]) none).segments,
      (rustTrim s.text = s.text ∧ s.text ≠ "") ∧ (0 ≤ s.start ∧ s.start ≤ s.«end») := by
  have hmem : (⟨0, 1/2, "hi"⟩ : TranscriptionSegment) ∈ (parse_whisper_output
      (some [⟨none, none, some 0, some 500, some " hi "⟩]) none).segments := by
    rw [parse_whisper_output_spec]
    have : retainedSeg ⟨none, none, some 0, some 500, some " hi "⟩ =
        some ⟨0, 1/2, "hi"⟩ := by
      unfold retainedSeg segStart segEnd
      norm_num
      exact ⟨by decide, by decide⟩
    simp [this]
  refine ⟨⟨0, 1/2, "hi"⟩, hmem, (c3_amended _ _ _ hmem).1, (c3_amended _ _ _ hmem).2 ?_⟩
  intro r hr
  simp only [Option.getD_some, List.mem_singleton] at hr
  subst hr
  unfold segStart segEnd
  norm_num

/-- C10: a raw segment with no parsable formatted timestamp and no
millisecond offset gets `start = 0` and `end = 0`, is not an error and is not
skipped: it is retained whenever its trimmed text is non-empty. -/
theorem c10_missing_fields (r : RawSegment) (lang : Option String)
    (h1 : r.timestamps_from.bind parse_timestamp = none)
    (h2 : r.timestamps_to.bind parse_timestamp = none)
    (h3 : r.offsets_from = none) (h4 : r.offsets_to = none) :
    segStart r = 0 ∧ segEnd r = 0 ∧
    (rustTrim (r.text.getD "") ≠ "" →
      (parse_whisper_output (some [r]) lang).segments =
        [⟨0, 0, rustTrim (r.text.getD "")⟩]) := by
  have hs : segStart r = 0 := by
    unfold segStart
    rw [h1, h3]
  have he : segEnd r = 0 := by
    unfold segEnd
    rw [h2, h4]
  refine ⟨hs, he, ?_⟩
  intro hne
  rw [parse_whisper_output_spec]
  dsimp only
  simp only [Option.getD_some]
  rw [List.filterMap_cons]
  unfold retainedSeg
  simp [hne, hs, he]

/-- C10 (witness): the theorem applied to a segment whose timestamp string
"oops" fails to parse and whose offsets are absent. -/
theorem c10_missing_fields_witness :
    segStart ⟨some "oops", none, none, none, some "x"⟩ = 0 ∧
    segEnd ⟨some "oops", none, none, none, some "x"⟩ = 0 ∧
    (rustTrim "x" ≠ "" →
      (parse_whisper_output (some [⟨some "oops", none, none, none, some "x"⟩]) none).segments =
        [⟨0, 0, rustTrim "x"⟩]) :=
  c10_missing_fields ⟨some "oops", none, none, none, some "x"⟩ none
    (by decide) (by decide) rfl rfl

/-- C7: timestamp parsing accepts both `,` and `.` as the fractional
separator — "00:01:23,456" and "00:01:23.456" both parse to 83.456 seconds —
and the millisecond-offset fallback agrees: an offset of 83456 ms also yields
83.456 seconds. -/
theorem c7_timestamp_parsing :
    parse_timestamp "00:01:23,456" = some (83456 / 1000) ∧
    parse_timestamp "00:01:23.456" = some (83456 / 1000) ∧
    segStart ⟨none, none, some 83456, none, none⟩ = 83456 / 1000 ∧
    (83456 / 1000 : ℚ) = 83 + 456 / 1000 := by
  have h0 : digitsVal ['0', '0'] = 0 := by decide
  have h1 : digitsVal ['0', '1'] = 1 := by decide
  have h2 : digitsVal ['2', '3'] = 23 := by decide
  have h3 : digitsVal ['4', '5', '6'] = 456 := by decide
  have h4 : digitsVal [] = 0 := by decide
  refine ⟨?_, ?_, ?_, by norm_num⟩ <;>
    norm_num +decide [parse_timestamp, parseF64Chars, splitColon, segStart, h0, h1, h2, h3, h4]

/-- C1 (amended): `transcribe_media` deletes the temporary waveform only on
the success path — whenever the run returns a `TranscriptionResult`, the
temporary `.wav` file no longer exists.  The claimed unconditional cleanup on
failing paths does not hold (see the counterexample): the remove-file call
sits after the `?` on the transcription step. -/
theorem c1_amended (env : PipelineEnv) (model_id : String)
    (r : TranscriptionResult)
    (h : (transcribe_media env model_id).outcome = .ok r) :
    (transcribe_media env model_id).temp_file_exists = false := by
  rcases hmi : env.media_info with e | info
  · simp [transcribe_media, hmi] at h
  · by_cases hha : info.has_audio = false
    · simp [transcribe_media, hmi, hha] at h
    · by_cases htd : env.temp_dir_ok = false
      · simp [transcribe_media, hmi, hha, htd] at h
      · rcases hed : env.extract_duration with e | d
        · simp [transcribe_media, hmi, hha, htd, hed] at h
        · by_cases hee : env.extract_exit_ok = false
          · simp [transcribe_media, hmi, hha, htd, hed, hee] at h
          · by_cases hwn : env.whisper_new_ok = false
            · simp [transcribe_media, hmi, hha, htd, hed, hee, hwn] at h
            · rcases htr : env.transcribe_result with e | res
              · simp [transcribe_media, hmi, hha, htd, hed, hee, hwn, htr] at h
              · simp [transcribe_media, hmi, hha, htd, hed, hee, hwn, htr]

/-- C1 (witness): the amended theorem applied to a concrete fully successful
run. -/
theorem c1_amended_witness :
    (transcribe_media
      ⟨.ok ⟨"mp4", 10, true, true⟩, true, .ok 10, [], true, true, true, true, [],
        .ok ⟨[], "", none, 0⟩⟩ "tiny").temp_file_exists = false :=
  c1_amended _ "tiny" ⟨[], "", none, 0⟩ rfl

/-- C1 (counterexample): a run in which transcription fails returns the
transcription error while the temporary `.wav` file still exists when
`transcribe_media` returns, refuting deletion on every exit path. -/
theorem c1_counterexample :
    (transcribe_media
      ⟨.ok ⟨"mp4", 10, true, true⟩, true, .ok 10, [], true, true, true, true, [],
        .error (.Whisper "Transcription failed")⟩ "tiny").outcome =
      .error (.Whisper "Transcription failed") ∧
    (transcribe_media
      ⟨.ok ⟨"mp4", 10, true, true⟩, true, .ok 10, [], true, true, true, true, [],
        .error (.Whisper "Transcription failed")⟩ "tiny").temp_file_exists = true :=
  ⟨rfl, rfl⟩

/-- C2 (amended): when the probe reports no audio stream, `transcribe_media`
fails with the `FFmpeg` error "This video does not contain an audio stream"
(the error enumeration has no dedicated `NoAudioStream` variant) before the
extraction or transcription subprocess is spawned and before any progress
event is emitted; the probe itself has already spawned one `ffprobe`
subprocess. -/
theorem c2_amended (env : PipelineEnv) (model_id : String) (info : MediaInfo)
    (hmi : env.media_info = .ok info) (hha : info.has_audio = false) :
    transcribe_media env model_id =
      ⟨[], [.ffprobe], false,
        .error (.FFmpeg "This video does not contain an audio stream")⟩ := by
  simp [transcribe_media, hmi, hha]

/-- C2 (witness): the amended theorem applied to a concrete probe report
without an audio stream. -/
theorem c2_amended_witness :
    transcribe_media
        ⟨.ok ⟨"mp4", 10, true, false⟩, true, .ok 10, [], true, true, true, true, [],
          .ok ⟨[], "", none, 0⟩⟩ "tiny" =
      ⟨[], [.ffprobe], false,
        .error (.FFmpeg "This video does not contain an audio stream")⟩ :=
  c2_amended _ "tiny" ⟨"mp4", 10, true, false⟩ rfl rfl

/-- C2 (counterexample): at a concrete no-audio input the spawned-subprocess
list of the run is `[ffprobe]` — non-empty, so the failure does not happen
"before any subprocess is spawned"; the returned error is the `FFmpeg` media
error rather than a dedicated `NoAudioStream` value. -/
theorem c2_counterexample :
    (transcribe_media
      ⟨.ok ⟨"mp4", 10, true, false⟩, true, .ok 10, [], true, true, true, true, [],
        .ok ⟨[], "", none, 0⟩⟩ "tiny").spawned = [.ffprobe] ∧
    (transcribe_media
      ⟨.ok ⟨"mp4", 10, true, false⟩, true, .ok 10, [], true, true, true, true, [],
        .ok ⟨[], "", none, 0⟩⟩ "tiny").spawned ≠ [] ∧
    (transcribe_media
      ⟨.ok ⟨"mp4", 10, true, false⟩, true, .ok 10, [], true, true, true, true, [],
        .ok ⟨[], "", none, 0⟩⟩ "tiny").outcome =
      .error (.FFmpeg "This video does not contain an audio stream") :=
  ⟨rfl, by decide, rfl⟩

lemma getLast?_shape (a b c z w : Event) (X Y : List Event) :
    (a :: (X ++ b :: c :: z :: (Y ++ [w]))).getLast? = some w := by
  rw [show a :: (X ++ b :: c :: z :: (Y ++ [w])) = (a :: (X ++ [b, c, z] ++ Y)) ++ [w] by simp]
  exact List.getLast?_concat _

/-- C8: the orchestrator remaps stage progress into one overall stream —
every extraction callback value `p` is emitted as an `"extracting"` event
with percent exactly `p * 0.3` (in `[0, 30]` for `p` in `[0, 100]`), every
transcription callback value `p` as a `"transcribing"` event with percent
exactly `30 + p * 0.7` (in `[30, 100]`), and a successful run's final event
is `("complete", 100)`. -/
theorem c8_progress_remap (env : PipelineEnv) (model_id : String)
    (info : MediaInfo) (d : ℚ)
    (hmi : env.media_info = .ok info) (hha : info.has_audio = true)
    (htd : env.temp_dir_ok = true) (hed : env.extract_duration = .ok d) :
    (∀ p ∈ env.extract_progress,
      (⟨"extracting", p * (3 / 10), "Extracting audio..."⟩ : Event) ∈
        (transcribe_media env model_id).events ∧
      (0 ≤ p → p ≤ 100 → 0 ≤ p * (3 / 10) ∧ p * (3 / 10) ≤ 30)) ∧
    (env.extract_exit_ok = true → env.whisper_new_ok = true →
      ∀ p ∈ env.transcribe_progress,
        (⟨"transcribing", 30 + p * (7 / 10),
          "Transcribing with " ++ model_id ++ "..."⟩ : Event) ∈
          (transcribe_media env model_id).events ∧
        (0 ≤ p → p ≤ 100 → 30 ≤ 30 + p * (7 / 10) ∧ 30 + p * (7 / 10) ≤ 100)) ∧
    (∀ r, (transcribe_media env model_id).outcome = .ok r →
      (transcribe_media env model_id).events.getLast? =
        some ⟨"complete", 100, "Transcription complete"⟩) := by
  have hb3 : ∀ p : ℚ, 0 ≤ p → p ≤ 100 → 0 ≤ p * (3 / 10) ∧ p * (3 / 10) ≤ 30 := by
    intro p h0 h1
    constructor
    · exact mul_nonneg h0 (by norm_num)
    · nlinarith
  have hb7 : ∀ p : ℚ, 0 ≤ p → p ≤ 100 →
      30 ≤ 30 + p * (7 / 10) ∧ 30 + p * (7 / 10) ≤ 100 := by
    intro p h0 h1
    constructor
    · nlinarith
    · nlinarith
  refine ⟨?_, ?_, ?_⟩
  · intro p hp
    refine ⟨?_, hb3 p⟩
    by_cases hee : env.extract_exit_ok = false
    · simp [transcribe_media, hmi, hha, htd, hed, hee, List.mem_map]
      exact Or.inr hp
    · by_cases hwn : env.whisper_new_ok = false
      · simp [transcribe_media, hmi, hha, htd, hed, hee, hwn, List.mem_map]
        exact Or.inr (Or.inl hp)
      · rcases htr : env.transcribe_result with e | res
        · simp [transcribe_media, hmi, hha, htd, hed, hee, hwn, htr, List.mem_map]
          exact Or.inr (Or.inl hp)
        · simp [transcribe_media, hmi, hha, htd, hed, hee, hwn, htr, List.mem_map]
          exact Or.inr (Or.inl hp)
  · intro hee hwn p hp
    refine ⟨?_, hb7 p⟩
    rcases htr : env.transcribe_result with e | res
    · simp [transcribe_media, hmi, hha, htd, hed, hee, hwn, htr, List.mem_map]
      exact Or.inr hp
    · simp [transcribe_media, hmi, hha, htd, hed, hee, hwn, htr, List.mem_map]
      exact Or.inr hp
  · intro r hr
    by_cases hee : env.extract_exit_ok = false
    · simp [transcribe_media, hmi, hha, htd, hed, hee] at hr
    · by_cases hwn : env.whisper_new_ok = false
      · simp [transcribe_media, hmi, hha, htd, hed, hee, hwn] at hr
      · rcases htr : env.transcribe_result with e | res
        · exact absurd hr (by simp [transcribe_media, hmi, hha, htd, hed, hee, hwn, htr])
        · have hev : (transcribe_media env model_id).events =
              (⟨"extracting", 0, "Extracting audio..."⟩ : Event) ::
                (env.extract_progress.map
                    (fun p => (⟨"extracting", p * (3 / 10), "Extracting audio..."⟩ : Event)) ++
                  ⟨"extracting", 100 * (3 / 10), "Extracting audio..."⟩ ::
                    ⟨"extracting", 30, "Audio extraction complete"⟩ ::
                      ⟨"transcribing", 30, "Starting transcription..."⟩ ::
                        (env.transcribe_progress.map
                            (fun p => (⟨"transcribing", 30 + p * (7 / 10),
                              "Transcribing with " ++ model_id ++ "..."⟩ : Event)) ++
                          [⟨"complete", 100, "Transcription complete"⟩])) := by
            simp [transcribe_media, hmi, hha, htd, hed, hee, hwn, htr]
          rw [hev]
          exact getLast?_shape _ _ _ _ _ _ _

/-- C8 (witness): the theorem applied to a concrete successful run with one
extraction callback at 50 and one transcription callback at 50. -/
theorem c8_progress_remap_witness :
    ((⟨"extracting", 50 * (3 / 10), "Extracting audio..."⟩ : Event) ∈
        (transcribe_media happyEnv "tiny").events ∧
      0 ≤ (50 : ℚ) * (3 / 10) ∧ (50 : ℚ) * (3 / 10) ≤ 30) ∧
    ((⟨"transcribing", 30 + 50 * (7 / 10), "Transcribing with " ++ "tiny" ++ "..."⟩ : Event) ∈
        (transcribe_media happyEnv "tiny").events ∧
      30 ≤ 30 + (50 : ℚ) * (7 / 10) ∧ 30 + (50 : ℚ) * (7 / 10) ≤ 100) ∧
    (transcribe_media happyEnv "tiny").events.getLast? =
      some ⟨"complete", 100, "Transcription complete"⟩ := by
  obtain ⟨h1, h2, h3⟩ :=
    c8_progress_remap happyEnv "tiny" ⟨"mp4", 120, true, true⟩ 120 rfl rfl rfl rfl
  have ha := h1 50 (by simp [happyEnv])
  have hb := h2 rfl rfl 50 (by simp [happyEnv])
  exact ⟨⟨ha.1, ha.2 (by norm_num) (by norm_num)⟩,
    ⟨hb.1, hb.2 (by norm_num) (by norm_num)⟩,
    h3 ⟨[], "", none, 0⟩ rfl⟩

/-- C4 (amended): when `download_model` fails mid-stream it surfaces a
`Download` error, the canonical model path still does not exist, and the
temporary `.tmp` file is left in place — it is not deleted on failure,
contrary to the claim (see the counterexample); the canonical path is
created only by the single atomic rename after the full stream was
written. -/
theorem c4_amended (model_id : String) (env : DownloadEnv) (fs : FsState)
    (hc : fs.canonical = false) :
    (∀ e, (download_model model_id env fs).1 = .error (.Download e) →
      (download_model model_id env fs).2.1.canonical = false ∧
      (download_model model_id env fs).2.1.temp = true) ∧
    ((download_model model_id env fs).2.1.canonical = true →
      ∃ p, (download_model model_id env fs).1 = .ok p ∧
        (download_model model_id env fs).2.1.temp = false) := by
  rcases hfind : available_models.find? (fun m => m.id = model_id) with _ | model
  · constructor
    · intro e he
      simp [download_model, hfind] at he
    · intro h
      simp [download_model, hfind] at h
      rw [h] at hc
      exact absurd hc (by simp)
  · by_cases hsend : env.send_ok = false
    · constructor
      · intro e he
        simp [download_model, hfind, hsend] at he
      · intro h
        simp [download_model, hfind, hsend] at h
        rw [h] at hc
        exact absurd hc (by simp)
    · rcases hloop : downloadLoop model_id (env.content_length.getD model.size_bytes)
          env.chunks 0 [] with ⟨res, d, acc⟩
      rcases res with err | u
      · constructor
        · intro e he
          simp [download_model, hfind, hsend, hloop]
          exact hc
        · intro h
          simp [download_model, hfind, hsend, hloop] at h
          rw [h] at hc
          exact absurd hc (by simp)
      · constructor
        · intro e he
          simp [download_model, hfind, hsend, hloop] at he
        · intro h
          exact ⟨get_model_path model_id, by simp [download_model, hfind, hsend, hloop]⟩

/-- C4 (witness): the amended theorem applied to a concrete failing stream
and to a concrete successful download. -/
theorem c4_amended_witness :
    ((download_model "tiny" ⟨true, none, [.error "timeout"]⟩ ⟨false, false⟩).2.1.canonical = false ∧
      (download_model "tiny" ⟨true, none, [.error "timeout"]⟩ ⟨false, false⟩).2.1.temp = true) ∧
    (∃ p, (download_model "tiny" ⟨true, some 1, [.ok 1]⟩ ⟨false, false⟩).1 = .ok p ∧
      (download_model "tiny" ⟨true, some 1, [.ok 1]⟩ ⟨false, false⟩).2.1.temp = false) :=
  ⟨(c4_amended "tiny" ⟨true, none, [.error "timeout"]⟩ ⟨false, false⟩ rfl).1 "timeout" rfl,
   (c4_amended "tiny" ⟨true, some 1, [.ok 1]⟩ ⟨false, false⟩ rfl).2 rfl⟩

/-- C4 (counterexample): a concrete download whose stream fails after one
chunk surfaces `Download "connection reset"` and leaves the temporary file
existing — it is not deleted on failure as the claim states. -/
theorem c4_counterexample :
    (download_model "tiny" ⟨true, none, [.ok 5, .error "connection reset"]⟩
        ⟨false, false⟩).1 = .error (.Download "connection reset") ∧
    (download_model "tiny" ⟨true, none, [.ok 5, .error "connection reset"]⟩
        ⟨false, false⟩).2.1.temp = true ∧
    (download_model "tiny" ⟨true, none, [.ok 5, .error "connection reset"]⟩
        ⟨false, false⟩).2.1.canonical = false :=
  ⟨rfl, rfl, rfl⟩

lemma ggml_data_ne_nil (id : String) : ("ggml-" ++ id).data ≠ [] := by
  rw [String.data_append]
  intro h
  have := List.append_eq_nil.mp h
  exact absurd this.1 (by decide)

lemma fileStem_ggml_bin (id : String) :
    fileStemChars ("ggml-" ++ id ++ ".bin").data = ("ggml-" ++ id).data := by
  have hdata : ("ggml-" ++ id ++ ".bin").data =
      ("ggml-" ++ id).data ++ ['.', 'b', 'i', 'n'] := by
    rw [String.data_append]
  unfold fileStemChars
  rw [hdata, List.reverse_append]
  rw [show (['.', 'b', 'i', 'n'] : List Char).reverse = ['n', 'i', 'b', '.'] from rfl]
  rw [show (['n', 'i', 'b', '.'] : List Char) ++ ("ggml-" ++ id).data.reverse =
    'n' :: 'i' :: 'b' :: '.' :: ("ggml-" ++ id).data.reverse from by simp]
  rw [List.dropWhile_cons_of_pos (by decide), List.dropWhile_cons_of_pos (by decide),
    List.dropWhile_cons_of_pos (by decide), List.dropWhile_cons_of_neg (by decide)]
  dsimp only
  rw [if_neg (by
    intro h
    exact absurd (List.reverse_eq_nil_iff.mp h) (ggml_data_ne_nil id))]
  exact List.reverse_reverse _

lemma temp_model_path_eq (id : String) :
    temp_model_path id = "ggml-" ++ id ++ ".bin.tmp" := by
  unfold temp_model_path withExtensionName get_model_path
  rw [if_neg (by decide), fileStem_ggml_bin]
  apply String.ext
  show ("ggml-" ++ id).data ++ '.' :: "bin.tmp".data = _
  rw [String.data_append]
  rfl

lemma ext_temp_model_path (id : String) :
    rustExtensionName (temp_model_path id) = some "tmp" := by
  rw [temp_model_path_eq]
  unfold rustExtensionName extensionChars
  have hdata : ("ggml-" ++ id ++ ".bin.tmp").data =
      ("ggml-" ++ id).data ++ ['.', 'b', 'i', 'n', '.', 't', 'm', 'p'] := by
    rw [String.data_append]
  rw [hdata, List.reverse_append]
  rw [show (['.', 'b', 'i', 'n', '.', 't', 'm', 'p'] : List Char).reverse =
    ['p', 'm', 't', '.', 'n', 'i', 'b', '.'] from rfl]
  rw [show (['p', 'm', 't', '.', 'n', 'i', 'b', '.'] : List Char) ++
      ("ggml-" ++ id).data.reverse =
    'p' :: 'm' :: 't' :: '.' :: 'n' :: 'i' :: 'b' :: '.' ::
      ("ggml-" ++ id).data.reverse from by simp]
  rw [List.dropWhile_cons_of_pos (by decide), List.dropWhile_cons_of_pos (by decide),
    List.dropWhile_cons_of_pos (by decide), List.dropWhile_cons_of_neg (by decide)]
  rw [List.takeWhile_cons_of_pos (by decide), List.takeWhile_cons_of_pos (by decide),
    List.takeWhile_cons_of_pos (by decide), List.takeWhile_cons_of_neg (by decide)]
  dsimp only
  rw [if_neg (by simp)]
  rfl

/-- C9: `get_installed_models` reports only directory entries whose final
extension is `bin`, and the in-flight temporary download file
`ggml-{id}.bin.tmp` — whose final extension is `tmp` — is never reported,
for every model id (ids are slugs without a path separator). -/
theorem c9_installed_only_bin (id : String) (entries : List String)
    (_hid : ∀ c ∈ id.data, c ≠ '/') :
    rustExtensionName (temp_model_path id) = some "tmp" ∧
    get_installed_models (temp_model_path id :: entries) =
      get_installed_models entries ∧
    (∀ m ∈ get_installed_models entries, ∃ name ∈ entries,
      rustExtensionName name = some "bin" ∧
      m = (⟨trimStartMatchesGgml (fileStemChars name.data)⟩ : String)) := by
  refine ⟨ext_temp_model_path id, ?_, ?_⟩
  · unfold get_installed_models
    rw [List.filterMap_cons]
    rw [if_neg (by rw [ext_temp_model_path id]; decide)]
  · intro m hm
    obtain ⟨name, hmem, hname⟩ := List.mem_filterMap.mp hm
    by_cases hb : rustExtensionName name = some "bin"
    · rw [if_pos hb] at hname
      exact ⟨name, hmem, hb, (Option.some.inj hname).symm⟩
    · rw [if_neg hb] at hname
      cases hname

/-- C9 (witness): the theorem applied to the id "tiny" with a directory also
holding the installed model file `ggml-base.bin`. -/
theorem c9_installed_only_bin_witness :
    rustExtensionName (temp_model_path "tiny") = some "tmp" ∧
    get_installed_models (temp_model_path "tiny" :: ["ggml-base.bin"]) =
      get_installed_models ["ggml-base.bin"] ∧
    get_installed_models ["ggml-base.bin"] = ["base"] := by
  obtain ⟨h1, h2, _⟩ :=
    c9_installed_only_bin "tiny" ["ggml-base.bin"] (by decide)
  exact ⟨h1, h2, by decide⟩

end ClipFlow
